import Mathlib

/-!
Shallow embedding of the golibrsync binding layer (package librsync):
the streaming Job engine (`Job.Read`, `jobIter`), the patch callback
bridge (`patchCallbackGo`), and the handle registry (`storePatcher`,
`getPatcher`, `dropPatcher`), together with theorems settling the
specification claims about them.

The external delta-encoding engine (librsync's `rs_job_iter` and the
session constructors) is not part of the repository; it is treated as an
opaque collaborator, modelled as an abstract step function.  Machine
buffers become Lean lists of bytes (`List Nat`), C null pointers become
`Option`, Go panics become explicit fatal outcomes.
-/

namespace Golibrsync

/-- Result codes returned by the engine's `rs_job_iter` / callbacks
(the `rs_result` enumeration as used by the binding). -/
inductive RsResult where
  | done
  | blocked
  | inputEnded
  | badMagic
  | corrupt
  | internalError
  | other (code : Int)
  deriving DecidableEq

/-- The binding's error taxonomy: `ErrInputEnded`, `ErrBadMagic`,
`ErrCorrupt`, `ErrInternal`, the defensive catch-all
`fmt.Errorf("Unexpected result from library: %d", res)`, and upstream
I/O faults (opaque to the engine, identified here by a tag). -/
inductive GoError where
  | inputEnded
  | badMagic
  | corrupt
  | internal
  | unexpected (code : Int)
  | ioErr (tag : Nat)
  deriving DecidableEq

/-- The error component of a Go `io.Reader` read: `io.EOF` or a hard
I/O error. `none` stands for a `nil` error. -/
inductive RdSig where
  | eofSig
  | hard (e : GoError)
  deriving DecidableEq

/-- Outcome of one `io.Reader.Read` call: the bytes read, the error
value, and the reader state afterwards. -/
structure ReadOut (ρ : Type) where
  data : List Nat
  sig : Option RdSig
  next : ρ

/-- A Go `io.Reader` with explicit state `ρ`: `read st n` performs one
`Read` with a buffer of capacity `n`. -/
structure Reader (ρ : Type) where
  read : ρ → Nat → ReadOut ρ

/-- Raw outcome of the foreign call `C.rs_job_iter`: either an
`rs_result` code, or an unwinding `jobInternalPanic` raised inside the
patch callback during the iteration (carrying the wrapped error, which
the Go code allows to be `nil`). -/
inductive IterRaw where
  | res (r : RsResult)
  | fault (e : Option GoError)
  deriving DecidableEq

/-- Effect of one engine iteration: new session state, raw outcome,
number of input bytes consumed from `avail_in`, and the bytes written
to the output buffer (`next_out` advance). -/
structure EngineOut (σ : Type) where
  state : σ
  raw : IterRaw
  consumed : Nat
  produced : List Nat

/-- The opaque engine session: `step st availIn eofIn outCap` is one
`rs_job_iter` against the current buffer state. -/
structure Engine (σ : Type) where
  step : σ → List Nat → Bool → Nat → EngineOut σ

/-- The `switch` in `jobIter` mapping an `rs_result` to
`(running, err)`: `RS_DONE ↦ (false, nil)`, `RS_BLOCKED ↦ (true, nil)`,
error codes to the error taxonomy. -/
def rsMap : RsResult → Bool × Option GoError
  | .done => (false, none)
  | .blocked => (true, none)
  | .inputEnded => (false, some .inputEnded)
  | .badMagic => (false, some .badMagic)
  | .corrupt => (false, some .corrupt)
  | .internalError => (false, some .internal)
  | .other c => (false, some (.unexpected c))

/-- `jobIter`: runs one foreign iteration and classifies its outcome.
The deferred `recover` converts a `jobInternalPanic` raised inside a
callback into `(running = false, err = jp.err)`; any `rs_result` code
goes through the `switch` (`rsMap`). -/
def jobIter : IterRaw → Bool × Option GoError
  | .res r => rsMap r
  | .fault e => (false, e)

/-- `inbufSize`: capacity of the input staging buffer (16 KiB). -/
def inbufSize : Nat := 16 * 1024

/-- `outbufSize`: capacity of the output staging buffer (16 KiB). -/
def outbufSize : Nat := 16 * 1024

/-- The `Job` state: engine session (`σ`), upstream reader state (`ρ`),
the `running` and `err` fields, the `eof_in` flag and unconsumed
`avail_in` bytes of `rs_buffers_t`, and the queued output `job.outbuf`. -/
structure Job (σ ρ : Type) where
  running : Bool
  err : Option GoError
  eofIn : Bool
  pendingIn : List Nat
  outbuf : List Nat
  engine : σ
  reader : ρ
  deriving DecidableEq

/-- `newJob`: fresh Job over an input reader —
`eof_in = 0`, `avail_in = 0`, empty output queue, `running = true`. -/
def newJob (eng : σ) (rd : ρ) : Job σ ρ :=
  { running := true, err := none, eofIn := false, pendingIn := [],
    outbuf := [], engine := eng, reader := rd }

/-- What one `Job.Read` call returns and does: `copied` are the bytes
actually written into the caller's buffer `p`, `n` is the returned
count `readN`, `ret` the returned error value, `post` the Job state
afterwards.  `didIter` records whether `rs_job_iter` was invoked on
this call and `didFill` whether the upstream reader was read. -/
structure ReadResult (σ ρ : Type) where
  copied : List Nat
  n : Nat
  ret : Option RdSig
  didIter : Bool
  didFill : Bool
  post : Job σ ρ
  deriving DecidableEq

/-- The iteration phase of `Job.Read`: point `next_out` at the output
staging buffer, run `jobIter`, compute `outN` from the `next_out`
advance, queue the produced bytes as `job.outbuf`, and return
`(outN, err)` on error or `(0, nil)` on success. -/
def iterPhase (E : Engine σ) (s : Job σ ρ) (didFill : Bool) : ReadResult σ ρ :=
  let eo := E.step s.engine s.pendingIn s.eofIn outbufSize
  let ri := jobIter eo.raw
  let s' : Job σ ρ :=
    { s with
      engine := eo.state
      pendingIn := s.pendingIn.drop eo.consumed
      running := ri.1
      outbuf := eo.produced }
  match ri.2 with
  | some e => ⟨[], eo.produced.length, some (.hard e), true, didFill, s'⟩
  | none => ⟨[], 0, none, true, didFill, s'⟩

/-- `Job.Read`, translated clause by clause:
1. if `len(job.outbuf) > 0`, serve `min` bytes from the queue and return;
2. if the job is not running, return the stored error, else `io.EOF`;
3. if `avail_in == 0 && eof_in == 0`, pull one chunk from the upstream
   reader — `nil` keeps going, `io.EOF` sets `eof_in`, any other error
   is stored in `job.err`, stops the job and is returned;
4. run one engine iteration (`iterPhase`). -/
def Job.Read (E : Engine σ) (R : Reader ρ) (s : Job σ ρ) (plen : Nat) :
    ReadResult σ ρ :=
  if 0 < s.outbuf.length then
    let readN := min s.outbuf.length plen
    ⟨s.outbuf.take readN, readN, none, false, false,
      { s with outbuf := s.outbuf.drop readN }⟩
  else if s.running = false then
    match s.err with
    | some e => ⟨[], 0, some (.hard e), false, false, s⟩
    | none => ⟨[], 0, some .eofSig, false, false, s⟩
  else if s.pendingIn.length = 0 ∧ s.eofIn = false then
    let ro := R.read s.reader inbufSize
    match ro.sig with
    | some (.hard e) =>
        ⟨[], 0, some (.hard e), false, true,
          { s with
            err := some e
            running := false
            reader := ro.next }⟩
    | some .eofSig =>
        iterPhase E { s with eofIn := true, pendingIn := ro.data, reader := ro.next } true
    | none =>
        iterPhase E { s with pendingIn := ro.data, reader := ro.next } true
  else
    iterPhase E s false

/-! ## The handle registry (`pointermap.go`: `patcherStore`) -/

/-- The process-wide `patcherStore` map from numeric ids (`uintptr`)
to values of type `α` (the owning `*Patcher`), as an association list. -/
abbrev Reg (α : Type) : Type := List (Nat × α)

/-- `getPatcher`: map lookup; Go returns the zero value `nil` for a
missing key, modelled by `none`.  The lookup is total — it never
panics. -/
def getPatcher : Reg α → Nat → Option α
  | [], _ => none
  | (k, v) :: t, id => if k = id then some v else getPatcher t id

/-- Go's `delete(patcherStore.store, id)`. -/
def removeReg : Reg α → Nat → Reg α
  | [], _ => []
  | (k, v) :: t, id => if k = id then removeReg t id else (k, v) :: removeReg t id

/-- `storePatcher`: registers `patcher` under `id`; if the id is
already present it panics `"pointer already stored"`, modelled by
`none`. -/
def storePatcher (r : Reg α) (patcher : α) (id : Nat) : Option (Reg α) :=
  match getPatcher r id with
  | some _ => none
  | none => some ((id, patcher) :: r)

/-- `dropPatcher`: deregisters `id`; if the id is not present it panics
`"pointer not stored"`, modelled by `none`. -/
def dropPatcher (r : Reg α) (id : Nat) : Option (Reg α) :=
  match getPatcher r id with
  | none => none
  | some _ => some (removeReg r id)

/-! ## The patch callback bridge (`patch.go`: `patchCallbackGo`) -/

/-- One allocation-ledger event on the C heap: `C.malloc` or `C.free`
of the block with the given identity. -/
inductive AEv where
  | alloc (id : Nat)
  | free (id : Nat)
  deriving DecidableEq

/-- The per-Patcher scratch-buffer state: `buf` is the currently
allocated block (`nil` at start), `nextId` a supply of fresh block
identities, `trace` the ledger of heap events so far. -/
structure Scratch where
  buf : Option Nat
  nextId : Nat
  trace : List AEv
  deriving DecidableEq

/-- A fresh Patcher's scratch state: `patcher.buf == nil`. -/
def Scratch.start : Scratch := ⟨none, 0, []⟩

/-- The buffer management at the top of `patchCallbackGo`: if
`patcher.buf != nil` it is `C.free`d, then a new block of the requested
size is `C.malloc`ed and becomes `patcher.buf`. -/
def cbScratch (p : Scratch) : Scratch :=
  let p1 : Scratch :=
    match p.buf with
    | some b => ⟨none, p.nextId, p.trace ++ [.free b]⟩
    | none => p
  ⟨some p1.nextId, p1.nextId + 1, p1.trace ++ [.alloc p1.nextId]⟩

/-- The scratch-buffer part of `Patcher.Close`: the current block, if
any, is `C.free`d. -/
def closeScratch (p : Scratch) : Scratch :=
  match p.buf with
  | some b => ⟨none, p.nextId, p.trace ++ [.free b]⟩
  | none => p

/-- A Go `io.ReaderAt` for the basis source: `readAt pos n` returns the
bytes read (at most `n`) and the error value. -/
structure BasisAt where
  readAt : Nat → Nat → List Nat × Option RdSig

/-- Outcome of one `patchCallbackGo` invocation: return `RS_DONE` with
the bytes placed at `*buf`, return `RS_INPUT_ENDED`, or raise
`panic(jobInternalPanic{err})` (the Go code wraps whatever `err` is,
which can be `nil`). -/
inductive CbRes where
  | done (data : List Nat)
  | inputEnded
  | fault (e : Option GoError)
  deriving DecidableEq

/-- `patchCallbackGo` body after the registry lookup: reallocate the
scratch buffer, `ReadAt` up to `len` bytes at offset `pos` from the
basis; on a short read, a non-`io.EOF` error raises
`jobInternalPanic`, `io.EOF` returns `RS_INPUT_ENDED`; a full read
returns `RS_DONE` with the bytes. -/
def patchCallbackGo (basis : BasisAt) (p : Scratch) (pos len : Nat) :
    CbRes × Scratch :=
  let p1 := cbScratch p
  let rd := basis.readAt pos len
  if rd.1.length < len then
    match rd.2 with
    | some .eofSig => (.inputEnded, p1)
    | some (.hard e) => (.fault (some e), p1)
    | none => (.fault none, p1)
  else
    (.done rd.1, p1)

/-- A registered Patcher as seen by the callback: its basis source and
its scratch-buffer state. -/
structure PatcherEntry where
  basis : BasisAt
  scratch : Scratch

/-- What a callback invocation with an unregistered id does. -/
inductive CbTop where
  | nilDeref
  | ran (res : CbRes)

/-- The full `patchCallbackGo` entry: `getPatcher` the id, then use the
result with no nil guard — an unregistered id leads straight to a nil
pointer dereference. -/
def patchCallbackTop (r : Reg PatcherEntry) (id pos len : Nat) : CbTop :=
  match getPatcher r id with
  | none => .nilDeref
  | some pe => .ran (patchCallbackGo pe.basis pe.scratch pos len).1

/-! ## Factory failure path (`NewPatcher` and `Patcher.Close`) -/

/-- Outcome of a factory call: a constructed value, an ordinary error
return, or a fatal panic. -/
inductive FOut (α : Type) where
  | ok (a : α)
  | errOut (r : α) (msg : String)
  | fatal (msg : String)
  deriving DecidableEq

/-- `NewPatcher`'s registry interactions, with `patchBeginFails`
telling whether `C.rs_patch_begin` returns `nil`: the new Patcher is
registered under the id derived from its `rs_buffers_t` address; on a
nil session the code runs `dropPatcher(id)` and then `job.Close()` —
which is `(*Patcher).Close` and so calls `dropPatcher` on the same id
again before releasing the Job. -/
def NewPatcher (r : Reg α) (patcher : α) (id : Nat) (patchBeginFails : Bool) :
    FOut (Reg α) :=
  match storePatcher r patcher id with
  | none => .fatal "pointer already stored"
  | some r1 =>
    if patchBeginFails then
      match dropPatcher r1 id with
      | none => .fatal "pointer not stored"
      | some r2 =>
        match dropPatcher r2 id with
        | none => .fatal "pointer not stored"
        | some r3 => .errOut r3 "rs_patch_begin failed"
    else
      .ok r1

/-! ## Stream plumbing: readers, `io.Copy`, and the helper pipelines

The external delta-encoding engine (librsync's `rs_sig_begin`,
`rs_loadsig_begin`, `rs_delta_begin`, `rs_patch_begin` sessions driven
by `rs_job_iter`) is not part of this repository; the spec treats it as
an opaque collaborator whose wire formats are engine-owned.  The
sessions below are therefore modelled from the spec as minimal engines
satisfying the session/iterate contract. -/

/-- Modelled from the spec: one `rs_job_iter` of an engine session that
streams its input through linearly (the missing external engine).  The
session state records the bytes consumed so far.  With `em = true` the
session emits every consumed byte (signature, delta and patch output
streams are modelled as literal streams, their wire format being
engine-owned and opaque); with `em = false` it emits nothing (the
signature-loading session, whose output stream is discarded and whose
side effect is the materialized structure).  It reports `RS_DONE` once
`eof_in` is set and the remaining input fits the output buffer, and
`RS_BLOCKED` otherwise. -/
def linE (em : Bool) : Engine (List Nat) :=
  ⟨fun st avail eof cap =>
    if eof ∧ (em = false ∨ avail.length ≤ cap) then
      ⟨st ++ avail, .res .done, avail.length, if em then avail else []⟩
    else
      ⟨st ++ avail.take (if em then min avail.length cap else avail.length),
       .res .blocked,
       if em then min avail.length cap else avail.length,
       if em then avail.take (min avail.length cap) else []⟩⟩

/-- A `bytes.Reader` over a byte list: returns a chunk and a `nil`
error while bytes remain, and `(0, io.EOF)` once exhausted. -/
def listReader : Reader (List Nat) :=
  ⟨fun rem n =>
    if rem.length = 0 then ⟨[], some .eofSig, []⟩
    else ⟨rem.take n, none, rem.drop n⟩⟩

/-- A `Job` used as the `io.Reader` of a downstream consumer (as
`LoadSignature` does with the signature-generation Job inside
`InstantDelta`): one read is one `Job.Read`. -/
def jobReader (E : Engine σ) (R : Reader ρ) : Reader (Job σ ρ) :=
  ⟨fun s n =>
    let rr := Job.Read E R s n
    ⟨rr.copied, rr.ret, rr.post⟩⟩

/-- Result of an `io.Copy` from a Job: the collected output and final
Job state, an error, or fuel exhaustion. -/
inductive CopyRes (σ ρ : Type) where
  | out (acc : List Nat) (s : Job σ ρ)
  | failed (e : GoError)
  | spin

/-- `io.Copy(dst, job)`: repeatedly `Read` into a transfer buffer and
append what was read to `dst`, stopping at `io.EOF` (success) or at
any other error. -/
def copyLoop (E : Engine σ) (R : Reader ρ) :
    Nat → Nat → Job σ ρ → List Nat → CopyRes σ ρ
  | 0, _, _, _ => .spin
  | fuel + 1, bs, s, acc =>
    let rr := Job.Read E R s bs
    match rr.ret with
    | none => copyLoop E R fuel bs rr.post (acc ++ rr.copied)
    | some .eofSig => .out (acc ++ rr.copied) rr.post
    | some (.hard e) => .failed e

/-- `io.Copy`'s default transfer buffer size (32 KiB). -/
def copyBufSize : Nat := 32 * 1024

/-- Fuel sufficient to drain a Job over a `listReader` of length `n`
(exceeds the drain measure `7*n + 6`). -/
def streamFuel (n : Nat) : Nat := 7 * n + 7

/-- Fuel sufficient to drain a signature-loading Job whose reader is a
signature-generation Job over a basis of length `n` (exceeds the drain
measure `31*n + 30`). -/
def loadFuel (n : Nat) : Nat := 31 * n + 31

/-- `NewSignatureGen` (via `NewDefaultSignatureGen`): a fresh Job whose
upstream reader is the basis and whose session is the spec-modelled
signature session. -/
def NewSignatureGen (basis : List Nat) : Job (List Nat) (List Nat) :=
  newJob [] basis

/-- `LoadSignature`: drive a private Job with a signature-loading
session over the full input stream into a discard sink (`nirvana`),
then perform the index-build step (`rs_build_hash_table`, modelled
from the spec as succeeding on a fully loaded structure); the result
is the materialized signature. -/
def LoadSignature (R : Reader ρ) (fuel : Nat) (input : ρ) :
    Option (List Nat) :=
  match copyLoop (linE false) R fuel copyBufSize (newJob [] input) [] with
  | .out _ sF => some sF.engine
  | _ => none

/-- `NewDeltaGen`: a fresh Job whose upstream reader is the new-file
content and whose session is seeded with the built signature (the
spec-modelled delta session emits the delta as a literal stream and
does not consult the index, the delta wire format being
engine-owned). -/
def NewDeltaGen (sig : List Nat) (newfile : List Nat) :
    (List Nat) × Job (List Nat) (List Nat) :=
  (sig, newJob [] newfile)

/-- `InstantDelta`: signature-generation Job over the basis, fed as the
input of `LoadSignature`; the loaded signature seeds a delta Job over
the new content, whose output is collected. -/
def InstantDelta (basis newfile : List Nat) : Option (List Nat) :=
  match LoadSignature (jobReader (linE true) listReader)
      (loadFuel basis.length) (NewSignatureGen basis) with
  | none => none
  | some sig =>
    match copyLoop (linE true) listReader (streamFuel newfile.length)
        copyBufSize (NewDeltaGen sig newfile).2 [] with
    | .out acc _ => some acc
    | _ => none

/-- The `Patch` helper: `NewPatcher` registers the patcher in the
handle registry and begins the spec-modelled patch session over the
delta stream (which replays the reconstructed content literally, the
delta wire format being engine-owned, so the model session issues no
basis-read callbacks); the output is collected and `Patcher.Close`
deregisters the id. -/
def Patch (basis delta : List Nat) : Option (List Nat) :=
  match NewPatcher ([] : Reg Unit) () 1 false with
  | .ok r1 =>
    match copyLoop (linE true) listReader (streamFuel delta.length)
        copyBufSize (newJob [] delta) [] with
    | .out acc _ =>
      match dropPatcher r1 1 with
      | some _ => some acc
      | none => none
    | _ => none
  | _ => none

/-! ## Invariant, content and measure for the drain proofs -/

/-- The input bytes the Job will still pull from upstream: none once
`eof_in` is set. -/
def remTerm (eofIn : Bool) (Lr : List Nat) : List Nat :=
  if eofIn then [] else Lr

/-- Reads of size `inbufSize` starting from reader state `r` return
chunks concatenating to `L` and then signal `io.EOF`, within `f`
steps. -/
inductive YieldsF (R : Reader ρ) : Nat → ρ → List Nat → Prop where
  | eofStep : ∀ {f : Nat} {r : ρ},
      (R.read r inbufSize).data = [] →
      (R.read r inbufSize).sig = some .eofSig →
      YieldsF R (f + 1) r []
  | more : ∀ {f : Nat} {r : ρ} {rest : List Nat},
      (R.read r inbufSize).sig = none →
      YieldsF R f (R.read r inbufSize).next rest →
      YieldsF R (f + 1) r ((R.read r inbufSize).data ++ rest)

/-- Invariant of a healthy Job driving a `linE em` session: no stored
error, the upstream reader still yields `Lr`, and a stopped Job has
consumed its staging and upstream input entirely. -/
def LinInv (em : Bool) (R : Reader ρ) (s : Job (List Nat) ρ)
    (f : Nat) (Lr : List Nat) : Prop :=
  s.err = none ∧
  (s.eofIn = false → YieldsF R f s.reader Lr) ∧
  (s.eofIn = true → Lr = []) ∧
  (s.running = false → s.pendingIn = [] ∧ s.eofIn = true) ∧
  (em = false → s.outbuf = [])

/-- The bytes a `linE em` Job will still deliver to its consumer. -/
def linContent (em : Bool) (s : Job (List Nat) ρ) (Lr : List Nat) : List Nat :=
  s.outbuf ++ (if em then s.pendingIn ++ remTerm s.eofIn Lr else [])

/-- The input bytes the session will have consumed in total once the
Job completes. -/
def linTotal (s : Job (List Nat) ρ) (Lr : List Nat) : List Nat :=
  s.engine ++ s.pendingIn ++ remTerm s.eofIn Lr

/-- Termination measure for draining a `linE` Job: strictly decreases
at every non-terminal `Job.Read`. -/
def linMeasure (s : Job (List Nat) ρ) (f : Nat) (Lr : List Nat) : Nat :=
  (if s.running then 1 else 0) + s.outbuf.length + 2 * s.pendingIn.length +
    (if s.eofIn then 0 else 1 + 4 * f + 3 * Lr.length)

/-! ## Concrete instances used by witnesses and counterexamples -/

/-- The scratch-buffer state after `n` callback invocations on a fresh
Patcher (no close yet). -/
def runCb : Nat → Scratch
  | 0 => Scratch.start
  | n + 1 => cbScratch (runCb n)

/-- An engine session whose every iteration reports the fixed raw
outcome `r`, consumes nothing and writes `produced`. -/
def constEngine (r : IterRaw) (produced : List Nat) : Engine Unit :=
  ⟨fun _ _ _ _ => ⟨(), r, 0, produced⟩⟩

/-- A basis `io.ReaderAt` whose every read returns the fixed bytes and
error value. -/
def constBasis (data : List Nat) (sig : Option RdSig) : BasisAt :=
  ⟨fun _ _ => (data, sig)⟩

/-- An `io.Reader` whose every read returns the fixed bytes and error
value. -/
def constReader (out : List Nat) (sig : Option RdSig) : Reader Unit :=
  ⟨fun u _ => ⟨out, sig, u⟩⟩

/-- Occurrences of an event in a heap ledger. -/
def countEv (e : AEv) : List AEv → Nat
  | [] => 0
  | x :: t => (if x = e then 1 else 0) + countEv e t

/-! ## Unfolding lemmas for the branches of `Job.Read` -/

theorem jobRead_serve (E : Engine σ) (R : Reader ρ) (s : Job σ ρ) (plen : Nat)
    (h : 0 < s.outbuf.length) :
    Job.Read E R s plen
      = ⟨s.outbuf.take (min s.outbuf.length plen), min s.outbuf.length plen,
         none, false, false,
         { s with outbuf := s.outbuf.drop (min s.outbuf.length plen) }⟩ := by
  unfold Job.Read
  rw [if_pos h]

theorem jobRead_stopped (E : Engine σ) (R : Reader ρ) (s : Job σ ρ) (plen : Nat)
    (h1 : s.outbuf = []) (h2 : s.running = false) :
    Job.Read E R s plen
      = match s.err with
        | some e => ⟨[], 0, some (.hard e), false, false, s⟩
        | none => ⟨[], 0, some .eofSig, false, false, s⟩ := by
  unfold Job.Read
  rw [if_neg (by simp [h1]), if_pos h2]

theorem jobRead_fill_hard (E : Engine σ) (R : Reader ρ) (s : Job σ ρ) (plen : Nat)
    (e : GoError)
    (h1 : s.outbuf = []) (h2 : s.running = true) (h3 : s.pendingIn = [])
    (h4 : s.eofIn = false) (h5 : (R.read s.reader inbufSize).sig = some (.hard e)) :
    Job.Read E R s plen
      = ⟨[], 0, some (.hard e), false, true,
         { s with
           err := some e
           running := false
           reader := (R.read s.reader inbufSize).next }⟩ := by
  unfold Job.Read
  rw [if_neg (by simp [h1]), if_neg (by simp [h2]), if_pos (by simp [h3, h4])]
  simp only [h5]

theorem jobRead_fill_eof (E : Engine σ) (R : Reader ρ) (s : Job σ ρ) (plen : Nat)
    (h1 : s.outbuf = []) (h2 : s.running = true) (h3 : s.pendingIn = [])
    (h4 : s.eofIn = false) (h5 : (R.read s.reader inbufSize).sig = some .eofSig) :
    Job.Read E R s plen
      = iterPhase E
          { s with
            eofIn := true
            pendingIn := (R.read s.reader inbufSize).data
            reader := (R.read s.reader inbufSize).next } true := by
  unfold Job.Read
  rw [if_neg (by simp [h1]), if_neg (by simp [h2]), if_pos (by simp [h3, h4])]
  simp only [h5]

theorem jobRead_fill_ok (E : Engine σ) (R : Reader ρ) (s : Job σ ρ) (plen : Nat)
    (h1 : s.outbuf = []) (h2 : s.running = true) (h3 : s.pendingIn = [])
    (h4 : s.eofIn = false) (h5 : (R.read s.reader inbufSize).sig = none) :
    Job.Read E R s plen
      = iterPhase E
          { s with
            pendingIn := (R.read s.reader inbufSize).data
            reader := (R.read s.reader inbufSize).next } true := by
  unfold Job.Read
  rw [if_neg (by simp [h1]), if_neg (by simp [h2]), if_pos (by simp [h3, h4])]
  simp only [h5]

theorem jobRead_noFill (E : Engine σ) (R : Reader ρ) (s : Job σ ρ) (plen : Nat)
    (h1 : s.outbuf = []) (h2 : s.running = true)
    (h3 : ¬(s.pendingIn.length = 0 ∧ s.eofIn = false)) :
    Job.Read E R s plen = iterPhase E s false := by
  unfold Job.Read
  rw [if_neg (by simp [h1]), if_neg (by simp [h2]), if_neg h3]

/-! ## Drain simulation for the spec-modelled linear sessions -/

/-- A `linE` iteration with `eof_in` set and fitting input: the session
consumes everything, reports `RS_DONE`, and the Job stops cleanly. -/
theorem iterPhase_lin_done (em : Bool) (s : Job (List Nat) ρ) (dF : Bool)
    (hc : s.eofIn = true) (hc2 : em = false ∨ s.pendingIn.length ≤ outbufSize) :
    iterPhase (linE em) s dF
      = ⟨[], 0, none, true, dF,
         { s with
           engine := s.engine ++ s.pendingIn
           pendingIn := []
           running := false
           outbuf := if em then s.pendingIn else [] }⟩ := by
  unfold iterPhase linE
  simp only
  rw [if_pos ⟨by simp [hc], hc2⟩]
  simp [jobIter, rsMap, List.drop_length]

/-- A `linE` iteration that cannot finish yet: the session consumes a
chunk, reports `RS_BLOCKED`, and the Job keeps running. -/
theorem iterPhase_lin_blocked (em : Bool) (s : Job (List Nat) ρ) (dF : Bool)
    (hc : ¬(s.eofIn = true ∧ (em = false ∨ s.pendingIn.length ≤ outbufSize))) :
    iterPhase (linE em) s dF
      = ⟨[], 0, none, true, dF,
         { s with
           engine := s.engine ++ s.pendingIn.take
             (if em then min s.pendingIn.length outbufSize else s.pendingIn.length)
           pendingIn := s.pendingIn.drop
             (if em then min s.pendingIn.length outbufSize else s.pendingIn.length)
           running := true
           outbuf := if em then s.pendingIn.take (min s.pendingIn.length outbufSize)
             else [] }⟩ := by
  unfold iterPhase linE
  simp only
  rw [if_neg (by simpa using hc)]
  simp [jobIter, rsMap]

/-- Splitting a list at any point and re-concatenating in front of a
tail is the identity. -/
theorem take_drop_chain (k : Nat) (l rest : List Nat) :
    l.take k ++ (l.drop k ++ rest) = l ++ rest := by
  rw [← List.append_assoc, List.take_append_drop]

/-- One `Job.Read` on a healthy `linE` Job is either the terminal
end-of-stream answer, or a successful step that preserves the
invariant, peels the copied bytes off the remaining content, preserves
the total consumed input, and strictly decreases the measure. -/
theorem lin_step (em : Bool) (R : Reader ρ) (s : Job (List Nat) ρ)
    (f : Nat) (Lr : List Nat) (bs : Nat)
    (hInv : LinInv em R s f Lr) (hbs : 1 ≤ bs) :
    (s.running = false ∧ s.outbuf = [] ∧
      Job.Read (linE em) R s bs = ⟨[], 0, some .eofSig, false, false, s⟩ ∧
      linContent em s Lr = [])
    ∨ ∃ f' Lr',
        (Job.Read (linE em) R s bs).ret = none ∧
        LinInv em R (Job.Read (linE em) R s bs).post f' Lr' ∧
        linContent em s Lr
          = (Job.Read (linE em) R s bs).copied
            ++ linContent em (Job.Read (linE em) R s bs).post Lr' ∧
        linTotal s Lr = linTotal (Job.Read (linE em) R s bs).post Lr' ∧
        linMeasure (Job.Read (linE em) R s bs).post f' Lr' < linMeasure s f Lr := by
  obtain ⟨hErr, hYld, hEofLr, hStop, hEm⟩ := hInv
  have hcap : 1 ≤ outbufSize := by norm_num [outbufSize]
  by_cases hOut : 0 < s.outbuf.length
  · -- serve from the queued output
    right
    have hem : em = true := by
      cases em
      · have h0 := hEm rfl
        rw [h0] at hOut
        simp at hOut
      · rfl
    subst hem
    rw [jobRead_serve (linE true) R s bs hOut]
    refine ⟨f, Lr, rfl, ⟨hErr, hYld, hEofLr, fun h => hStop h, by simp⟩, ?_, rfl, ?_⟩
    · simp only [linContent, if_pos rfl]
      conv_rhs => rw [← List.append_assoc, List.take_append_drop]
    · have h1 : 1 ≤ min s.outbuf.length bs := le_min hOut hbs
      cases hR : s.running <;> cases hE : s.eofIn <;>
        simp [linMeasure, hR, hE, List.length_drop] <;> omega
  · have hOutE : s.outbuf = [] := List.length_eq_zero.mp (by omega)
    by_cases hRun : s.running = false
    · -- terminal: stopped with no stored error
      left
      obtain ⟨hP, hE⟩ := hStop hRun
      refine ⟨hRun, hOutE, ?_, ?_⟩
      · rw [jobRead_stopped (linE em) R s bs hOutE hRun]
        simp [hErr]
      · simp [linContent, hOutE, hP, hE, remTerm]
    · have hRunT : s.running = true := by
        revert hRun; cases s.running <;> simp
      by_cases hFill : s.pendingIn.length = 0 ∧ s.eofIn = false
      · obtain ⟨hP0, hEofF⟩ := hFill
        have hPE : s.pendingIn = [] := List.length_eq_zero.mp hP0
        have hY := hYld hEofF
        cases hY with
        | eofStep hd hsig =>
          -- upstream signals io.EOF at once; the iteration completes
          right
          rw [jobRead_fill_eof (linE em) R s bs hOutE hRunT hPE hEofF hsig, hd]
          rw [iterPhase_lin_done em _ true rfl (Or.inr (by simp))]
          refine ⟨0, [], rfl, ?_, ?_, ?_, ?_⟩
          · refine ⟨hErr, by simp, fun _ => rfl, fun _ => ⟨rfl, rfl⟩, ?_⟩
            intro h; subst h; rfl
          · cases em <;> simp [linContent, remTerm, hOutE, hPE]
          · cases em <;> simp [linTotal, remTerm, hPE]
          · cases em <;>
              simp [linMeasure, hRunT, hEofF, hOutE, hPE]
        | more hsig hrest =>
          -- upstream returns a chunk with a nil error; the iteration blocks
          rename_i f0 rest
          right
          rw [jobRead_fill_ok (linE em) R s bs hOutE hRunT hPE hEofF hsig]
          rw [iterPhase_lin_blocked em _ true (by simp [hEofF])]
          refine ⟨f0, rest, rfl, ?_, ?_, ?_, ?_⟩
          · refine ⟨hErr, fun _ => hrest, by simp [hEofF], by simp, ?_⟩
            intro h; subst h; simp
          · cases em <;>
              simp [linContent, remTerm, hOutE, hPE, hEofF, take_drop_chain]
          · cases em <;>
              simp [linTotal, remTerm, hPE, hEofF, take_drop_chain]
          · cases em <;>
              simp [linMeasure, hRunT, hEofF, hOutE, hPE, List.length_take,
                List.length_drop] <;> omega
      · -- staged input or eof flag already present: iterate directly
        rw [jobRead_noFill (linE em) R s bs hOutE hRunT hFill]
        by_cases hC : s.eofIn = true ∧ (em = false ∨ s.pendingIn.length ≤ outbufSize)
        · -- the session completes
          right
          have hLrE : Lr = [] := hEofLr hC.1
          subst hLrE
          rw [iterPhase_lin_done em s false hC.1 hC.2]
          refine ⟨f, [], rfl, ?_, ?_, ?_, ?_⟩
          · refine ⟨hErr, by simp [hC.1], fun _ => rfl, fun _ => ⟨rfl, hC.1⟩, ?_⟩
            intro h; subst h; rfl
          · cases em <;> simp [linContent, remTerm, hOutE, hC.1]
          · cases em <;> simp [linTotal, remTerm, hC.1]
          · cases em <;>
              simp [linMeasure, hRunT, hC.1, hOutE] <;> omega
        · -- the session blocks consuming a chunk of staged input
          right
          have hKfacts : (s.eofIn = false ∧ 1 ≤ s.pendingIn.length) ∨
              (s.eofIn = true ∧ em = true ∧ outbufSize < s.pendingIn.length) := by
            cases hE : s.eofIn
            · left
              refine ⟨rfl, ?_⟩
              by_contra hlen
              exact hFill ⟨by omega, hE⟩
            · right
              refine ⟨rfl, ?_, ?_⟩
              · by_contra hemF
                exact hC ⟨hE, Or.inl (by revert hemF; cases em <;> simp)⟩
              · by_contra hlen
                exact hC ⟨hE, Or.inr (by omega)⟩
          rw [iterPhase_lin_blocked em s false hC]
          refine ⟨f, Lr, rfl, ?_, ?_, ?_, ?_⟩
          · refine ⟨hErr, fun h => hYld h, fun h => hEofLr h, by simp, ?_⟩
            intro h; subst h; simp
          · cases em <;>
              simp [linContent, remTerm, hOutE, take_drop_chain]
          · cases em <;>
              simp [linTotal, remTerm, take_drop_chain]
          · rcases hKfacts with ⟨hE, hlen⟩ | ⟨hE, hem, hlen⟩
            · cases em <;>
                simp [linMeasure, hRunT, hE, List.length_take, List.length_drop] <;>
                omega
            · subst hem
              simp [linMeasure, hRunT, hE, List.length_take, List.length_drop]
              omega

/-- `linMeasure` at a freshly constructed Job. -/
theorem newJob_measure (rd : ρ) (f : Nat) (Lr : List Nat) :
    linMeasure (newJob ([] : List Nat) rd) f Lr = 4 * f + 3 * Lr.length + 2 := by
  simp [linMeasure, newJob]
  omega

/-- Draining a healthy `linE` Job with `io.Copy` collects exactly the
remaining content, and the completed session has consumed the whole
input stream. -/
theorem lin_copy (em : Bool) (R : Reader ρ) :
    ∀ (fuel : Nat) (s : Job (List Nat) ρ) (f : Nat) (Lr : List Nat)
      (acc : List Nat) (bs : Nat),
      LinInv em R s f Lr → 1 ≤ bs → linMeasure s f Lr < fuel →
      ∃ sF, copyLoop (linE em) R fuel bs s acc
              = .out (acc ++ linContent em s Lr) sF ∧
            sF.engine = linTotal s Lr := by
  intro fuel
  induction fuel with
  | zero =>
    intro s f Lr acc bs _ _ h
    omega
  | succ g ih =>
    intro s f Lr acc bs hInv hbs hlt
    rcases lin_step em R s f Lr bs hInv hbs with
      ⟨hRun, hOutE, hEq, hCont⟩ | ⟨f', Lr', hRet, hInv', hCont, hTot, hDec⟩
    · refine ⟨s, ?_, ?_⟩
      · simp [copyLoop, hEq, hCont]
      · obtain ⟨hP, hE⟩ := hInv.2.2.2.1 hRun
        simp [linTotal, hP, hE, remTerm]
    · obtain ⟨sF, hcopy, heng⟩ :=
        ih (Job.Read (linE em) R s bs).post f' Lr'
          (acc ++ (Job.Read (linE em) R s bs).copied) bs hInv' hbs (by omega)
      refine ⟨sF, ?_, ?_⟩
      · simp only [copyLoop, hRet]
        rw [hcopy, hCont, List.append_assoc]
      · rw [heng, ← hTot]

/-- A drained `linE true` Job, exposed as an `io.Reader`
(`jobReader`), yields exactly its remaining content. -/
theorem lin_yields (R : Reader ρ) :
    ∀ (g : Nat) (s : Job (List Nat) ρ) (f : Nat) (Lr : List Nat),
      LinInv true R s f Lr → linMeasure s f Lr < g →
      YieldsF (jobReader (linE true) R) g s (linContent true s Lr) := by
  intro g
  induction g with
  | zero =>
    intro s f Lr _ h
    omega
  | succ g ih =>
    intro s f Lr hInv hlt
    have hbs : 1 ≤ inbufSize := by norm_num [inbufSize]
    rcases lin_step true R s f Lr inbufSize hInv hbs with
      ⟨hRun, hOutE, hEq, hCont⟩ | ⟨f', Lr', hRet, hInv', hCont, hTot, hDec⟩
    · rw [hCont]
      exact YieldsF.eofStep (by simp [jobReader, hEq]) (by simp [jobReader, hEq])
    · rw [hCont]
      have hnext := ih (Job.Read (linE true) R s inbufSize).post f' Lr' hInv' (by omega)
      exact YieldsF.more hRet hnext

/-- A `listReader` yields its whole list. -/
theorem listReader_yields :
    ∀ (g : Nat) (L : List Nat), L.length < g → YieldsF listReader g L L := by
  intro g
  induction g with
  | zero =>
    intro L h
    omega
  | succ g ih =>
    intro L hlt
    cases L with
    | nil => exact YieldsF.eofStep (by simp [listReader]) (by simp [listReader])
    | cons a t =>
      have hne : (a :: t).length ≠ 0 := by simp
      have h1 : (listReader.read (a :: t) inbufSize).sig = none := by
        simp [listReader]
      have h2 : (listReader.read (a :: t) inbufSize).data = (a :: t).take inbufSize := by
        simp [listReader]
      have h3 : (listReader.read (a :: t) inbufSize).next = (a :: t).drop inbufSize := by
        simp [listReader]
      have hib : 1 ≤ inbufSize := by norm_num [inbufSize]
      have hrest : YieldsF listReader g ((a :: t).drop inbufSize) ((a :: t).drop inbufSize) := by
        apply ih
        have hdl : ((a :: t).drop inbufSize).length = (a :: t).length - inbufSize :=
          List.length_drop _ _
        simp only [List.length_cons] at hdl hlt ⊢
        omega
      have hstep := YieldsF.more (R := listReader) h1 (by rw [h3]; exact hrest)
      rw [h2] at hstep
      rw [List.take_append_drop] at hstep
      exact hstep

/-- The invariant holds at a fresh Job over a `listReader`. -/
theorem newJob_LinInv (em : Bool) (L : List Nat) :
    LinInv em listReader (newJob [] L) (L.length + 1) L := by
  refine ⟨rfl, fun _ => listReader_yields (L.length + 1) L (by omega), ?_, ?_, fun _ => rfl⟩
  · intro h
    simp [newJob] at h
  · intro h
    simp [newJob] at h

/-- Draining a fresh `linE true` Job over a `listReader` produces the
list itself. -/
theorem lin_list_copy (L : List Nat) :
    ∃ sF, copyLoop (linE true) listReader (streamFuel L.length) copyBufSize
        (newJob [] L) [] = .out L sF := by
  obtain ⟨sF, hcopy, _⟩ :=
    lin_copy true listReader (streamFuel L.length) (newJob [] L) (L.length + 1) L
      [] copyBufSize (newJob_LinInv true L) (by norm_num [copyBufSize])
      (by rw [newJob_measure]; unfold streamFuel; omega)
  refine ⟨sF, ?_⟩
  simpa [linContent, newJob, remTerm] using hcopy

/-- `LoadSignature` fed by a signature-generation Job over basis `B`
materializes exactly the signature stream `B`. -/
theorem LoadSignature_model (B : List Nat) :
    LoadSignature (jobReader (linE true) listReader) (loadFuel B.length)
      (NewSignatureGen B) = some B := by
  have hyield : YieldsF (jobReader (linE true) listReader) (7 * B.length + 7)
      (newJob [] B) B := by
    have h := lin_yields listReader (7 * B.length + 7) (newJob [] B)
      (B.length + 1) B (newJob_LinInv true B)
      (by rw [newJob_measure]; omega)
    simpa [linContent, newJob, remTerm] using h
  have hInvLS : LinInv false (jobReader (linE true) listReader)
      (newJob [] (NewSignatureGen B)) (7 * B.length + 7) B := by
    refine ⟨rfl, fun _ => hyield, ?_, ?_, fun _ => rfl⟩
    · intro h
      simp [newJob] at h
    · intro h
      simp [newJob] at h
  obtain ⟨sF, hcopy, heng⟩ :=
    lin_copy false (jobReader (linE true) listReader) (loadFuel B.length)
      (newJob [] (NewSignatureGen B)) (7 * B.length + 7) B [] copyBufSize
      hInvLS (by norm_num [copyBufSize])
      (by rw [newJob_measure]; unfold loadFuel; omega)
  unfold LoadSignature
  rw [hcopy]
  simp only []
  rw [heng]
  simp [linTotal, newJob, remTerm]

/-- C3: for every basis `B` and mutated content `B'`, applying the
patch operation with basis `B` to the delta computed from `B`'s
signature and `B'` (the `InstantDelta` pipeline followed by the
`Patch` helper, over the spec-modelled engine sessions) reconstructs
exactly `B'`. -/
theorem patch_delta_round_trip (B Bp : List Nat) :
    (InstantDelta B Bp).bind (Patch B) = some Bp := by
  obtain ⟨sF1, h1⟩ := lin_list_copy Bp
  have hID : InstantDelta B Bp = some Bp := by
    unfold InstantDelta
    rw [LoadSignature_model B]
    simp only [NewDeltaGen]
    rw [h1]
  rw [hID]
  simp only [Option.bind]
  have hNP : NewPatcher ([] : Reg Unit) () 1 false = .ok [(1, ())] := rfl
  have hDrop : dropPatcher ([(1, ())] : Reg Unit) 1 = some [] := rfl
  unfold Patch
  rw [hNP]
  simp only []
  rw [h1]
  simp only []
  rw [hDrop]

/-! ## Facts about the iteration phase shared by several claims -/

/-- Fields of `iterPhase` that do not depend on the iteration outcome:
no bytes are copied to the caller, the produced bytes are queued in
full, and `job.err` is untouched. -/
theorem iterPhase_fields (E : Engine σ) (s : Job σ ρ) (dF : Bool) :
    (iterPhase E s dF).copied = [] ∧
    (iterPhase E s dF).didIter = true ∧
    (iterPhase E s dF).didFill = dF ∧
    (iterPhase E s dF).post.outbuf
      = (E.step s.engine s.pendingIn s.eofIn outbufSize).produced ∧
    (iterPhase E s dF).post.err = s.err ∧
    (iterPhase E s dF).post.eofIn = s.eofIn := by
  rcases hm : (jobIter (E.step s.engine s.pendingIn s.eofIn outbufSize).raw).2 with _ | e <;>
    simp [iterPhase, hm]

/-- Whenever `jobIter` reports an error, it also reports the job as no
longer running. -/
theorem jobIter_stops (rw : IterRaw) (e : GoError)
    (h : (jobIter rw).2 = some e) : (jobIter rw).1 = false := by
  cases rw with
  | fault o => rfl
  | res r => cases r <;> simp [jobIter, rsMap] at h ⊢

/-- An erroring iteration leaves the job stopped with `job.err`
untouched. -/
theorem iterPhase_err (E : Engine σ) (s : Job σ ρ) (dF : Bool) (e : GoError)
    (h : (iterPhase E s dF).ret = some (.hard e)) :
    (iterPhase E s dF).post.running = false ∧
    (iterPhase E s dF).post.err = s.err := by
  rcases hm : (jobIter (E.step s.engine s.pendingIn s.eofIn outbufSize).raw).2 with _ | e' <;>
    simp [iterPhase, hm] at h ⊢
  exact jobIter_stops _ _ hm

/-! ## Claim theorems -/

/-- C7: in every `Job.Read`, an engine iteration is requested only when
the pending-output buffer is empty; a call that finds pending output
serves bytes only from that buffer — without reading upstream input and
without invoking the engine — leaving every other component of the Job
untouched. -/
theorem read_serves_pending_before_engine (E : Engine σ) (R : Reader ρ)
    (s : Job σ ρ) (plen : Nat) :
    ((Job.Read E R s plen).didIter = true → s.outbuf = []) ∧
    (0 < s.outbuf.length →
      Job.Read E R s plen
        = ⟨s.outbuf.take (min s.outbuf.length plen), min s.outbuf.length plen,
           none, false, false,
           { s with outbuf := s.outbuf.drop (min s.outbuf.length plen) }⟩) := by
  constructor
  · intro hIter
    by_contra hne
    have hOut : 0 < s.outbuf.length := List.length_pos.mpr hne
    rw [jobRead_serve E R s plen hOut] at hIter
    simp at hIter
  · intro hOut
    exact jobRead_serve E R s plen hOut

/-- Witness for C7 at a concrete Job with queued output `[9, 8, 7]` and
a 2-byte caller buffer. -/
theorem read_serves_pending_before_engine_witness :
    Job.Read (constEngine (.res .done) []) listReader
        { newJob () ([] : List Nat) with outbuf := [9, 8, 7] } 2
      = ⟨[9, 8], 2, none, false, false,
         { newJob () ([] : List Nat) with outbuf := [7] }⟩ := by
  rw [(read_serves_pending_before_engine (constEngine (.res .done) []) listReader
    { newJob () ([] : List Nat) with outbuf := [9, 8, 7] } 2).2 (by decide)]
  decide

/-- C2 (amended): a `Job.Read` that runs an engine iteration queues the
bytes the engine produced, in full, as the pending output; it copies
none of them into the caller's buffer during that same call; on success
that call returns `n = 0`, and on an iteration error it returns `n` =
the produced count while still copying nothing.  Queued bytes are
served only by subsequent calls. -/
theorem iteration_output_queued (E : Engine σ) (R : Reader ρ) (s : Job σ ρ)
    (dF : Bool) (plen : Nat) :
    ((iterPhase E s dF).post.outbuf
        = (E.step s.engine s.pendingIn s.eofIn outbufSize).produced) ∧
    ((iterPhase E s dF).copied = []) ∧
    ((iterPhase E s dF).ret = none → (iterPhase E s dF).n = 0) ∧
    ((iterPhase E s dF).ret ≠ none →
      (iterPhase E s dF).n
        = (E.step s.engine s.pendingIn s.eofIn outbufSize).produced.length) ∧
    ((Job.Read E R s plen).didIter = true → (Job.Read E R s plen).copied = []) := by
  refine ⟨(iterPhase_fields E s dF).2.2.2.1, (iterPhase_fields E s dF).1, ?_, ?_, ?_⟩
  · rcases hm : (jobIter (E.step s.engine s.pendingIn s.eofIn outbufSize).raw).2 with _ | e <;>
      simp [iterPhase, hm]
  · rcases hm : (jobIter (E.step s.engine s.pendingIn s.eofIn outbufSize).raw).2 with _ | e <;>
      simp [iterPhase, hm]
  · intro hIter
    by_cases hOut : 0 < s.outbuf.length
    · rw [jobRead_serve E R s plen hOut] at hIter
      simp at hIter
    · have hOutE : s.outbuf = [] := List.length_eq_zero.mp (by omega)
      by_cases hRun : s.running = false
      · cases herr : s.err <;>
          rw [jobRead_stopped E R s plen hOutE hRun] at hIter ⊢ <;>
          simp [herr] at hIter
      · have hRunT : s.running = true := by
          revert hRun; cases s.running <;> simp
        by_cases hFill : s.pendingIn.length = 0 ∧ s.eofIn = false
        · have hPE : s.pendingIn = [] := List.length_eq_zero.mp hFill.1
          rcases hsig : (R.read s.reader inbufSize).sig with _ | sg
          · rw [jobRead_fill_ok E R s plen hOutE hRunT hPE hFill.2 hsig]
            exact (iterPhase_fields E _ true).1
          · cases sg with
            | eofSig =>
              rw [jobRead_fill_eof E R s plen hOutE hRunT hPE hFill.2 hsig]
              exact (iterPhase_fields E _ true).1
            | hard e =>
              rw [jobRead_fill_hard E R s plen e hOutE hRunT hPE hFill.2 hsig] at hIter
              simp at hIter
        · rw [jobRead_noFill E R s plen hOutE hRunT hFill]
          exact (iterPhase_fields E s false).1

/-- Witness for the amended C2: a concrete iteration producing `[4, 5]`
queues both bytes, copies nothing, and returns `n = 0`. -/
theorem iteration_output_queued_witness :
    (iterPhase (constEngine (.res .blocked) [4, 5]) (newJob () ([] : List Nat))
        false).post.outbuf = [4, 5] ∧
    (iterPhase (constEngine (.res .blocked) [4, 5]) (newJob () ([] : List Nat))
        false).copied = [] ∧
    (iterPhase (constEngine (.res .blocked) [4, 5]) (newJob () ([] : List Nat))
        false).n = 0 := by
  have h := iteration_output_queued (constEngine (.res .blocked) [4, 5]) listReader
    (newJob () ([] : List Nat)) false 3
  exact ⟨by simpa using h.1, h.2.1, h.2.2.1 (by decide)⟩

/-- C2 is false as stated: with the pending-output buffer empty, an
iteration that produces `[1, 2, 3]` into a 3-byte caller buffer
returns `n = 0` and copies nothing in that same call — all three bytes
stay queued. -/
theorem iteration_output_not_served_same_call :
    (Job.Read (constEngine (.res .blocked) [1, 2, 3]) listReader
        (newJob () ([] : List Nat)) 3).n = 0 ∧
    (Job.Read (constEngine (.res .blocked) [1, 2, 3]) listReader
        (newJob () ([] : List Nat)) 3).copied = [] ∧
    (Job.Read (constEngine (.res .blocked) [1, 2, 3]) listReader
        (newJob () ([] : List Nat)) 3).post.outbuf = [1, 2, 3] ∧
    ¬((Job.Read (constEngine (.res .blocked) [1, 2, 3]) listReader
        (newJob () ([] : List Nat)) 3).n = 3 ∧
      (Job.Read (constEngine (.res .blocked) [1, 2, 3]) listReader
        (newJob () ([] : List Nat)) 3).copied = [1, 2, 3]) := by
  decide

/-- C1 (amended): an error status from an engine iteration terminates
the Job — `running` becomes `false`, permanently — and the mapped error
is returned by that same `Read` call, but it is *not* stored in
`job.err`; a stopped Job with no stored error answers end-of-stream,
and only a stored upstream I/O error is repeated by every later
`Read`. -/
theorem engine_error_terminal_not_stored (E : Engine σ) (R : Reader ρ)
    (s : Job σ ρ) (plen : Nat) (e : GoError) :
    ((Job.Read E R s plen).didIter = true →
      (Job.Read E R s plen).ret = some (.hard e) →
      (Job.Read E R s plen).post.running = false ∧
      (Job.Read E R s plen).post.err = s.err) ∧
    (s.running = false → (Job.Read E R s plen).post.running = false) ∧
    (s.running = false → s.err = none → s.outbuf = [] →
      Job.Read E R s plen = ⟨[], 0, some .eofSig, false, false, s⟩) ∧
    (s.running = false → s.err = some e → s.outbuf = [] →
      Job.Read E R s plen = ⟨[], 0, some (.hard e), false, false, s⟩) := by
  refine ⟨?_, ?_, ?_, ?_⟩
  · intro hIter hRet
    by_cases hOut : 0 < s.outbuf.length
    · rw [jobRead_serve E R s plen hOut] at hIter
      simp at hIter
    · have hOutE : s.outbuf = [] := List.length_eq_zero.mp (by omega)
      by_cases hRun : s.running = false
      · cases herr : s.err <;>
          rw [jobRead_stopped E R s plen hOutE hRun] at hIter <;>
          simp [herr] at hIter
      · have hRunT : s.running = true := by
          revert hRun; cases s.running <;> simp
        by_cases hFill : s.pendingIn.length = 0 ∧ s.eofIn = false
        · have hPE : s.pendingIn = [] := List.length_eq_zero.mp hFill.1
          rcases hsig : (R.read s.reader inbufSize).sig with _ | sg
          · rw [jobRead_fill_ok E R s plen hOutE hRunT hPE hFill.2 hsig] at hRet ⊢
            exact iterPhase_err E _ true e hRet
          · cases sg with
            | eofSig =>
              rw [jobRead_fill_eof E R s plen hOutE hRunT hPE hFill.2 hsig] at hRet ⊢
              exact iterPhase_err E _ true e hRet
            | hard e' =>
              rw [jobRead_fill_hard E R s plen e' hOutE hRunT hPE hFill.2 hsig] at hIter
              simp at hIter
        · rw [jobRead_noFill E R s plen hOutE hRunT hFill] at hRet ⊢
          exact iterPhase_err E s false e hRet
  · intro hRun
    by_cases hOut : 0 < s.outbuf.length
    · rw [jobRead_serve E R s plen hOut]
      exact hRun
    · have hOutE : s.outbuf = [] := List.length_eq_zero.mp (by omega)
      cases herr : s.err <;>
        rw [jobRead_stopped E R s plen hOutE hRun] <;>
        simp [herr, hRun]
  · intro hRun herr hOutE
    rw [jobRead_stopped E R s plen hOutE hRun]
    simp [herr]
  · intro hRun herr hOutE
    rw [jobRead_stopped E R s plen hOutE hRun]
    simp [herr]

/-- Witness for the amended C1: a `RS_BAD_MAGIC` iteration on a fresh
Job stops it, returns `ErrBadMagic`, and leaves `job.err` unset. -/
theorem engine_error_terminal_not_stored_witness :
    (Job.Read (constEngine (.res .badMagic) []) listReader
        (newJob () ([] : List Nat)) 4).post.running = false ∧
    (Job.Read (constEngine (.res .badMagic) []) listReader
        (newJob () ([] : List Nat)) 4).post.err = none := by
  have h := (engine_error_terminal_not_stored (constEngine (.res .badMagic) [])
    listReader (newJob () ([] : List Nat)) 4 .badMagic).1 (by decide) (by decide)
  exact ⟨h.1, h.2⟩

/-- C1 is false as stated: after an iteration reports `RS_BAD_MAGIC`
(the first call returns `ErrBadMagic`), the very next `Read` on the
same Job returns `io.EOF`, not the stored error — the engine-status
error is never stored. -/
theorem engine_error_not_repeated :
    (Job.Read (constEngine (.res .badMagic) []) listReader
        (newJob () ([] : List Nat)) 4).ret = some (.hard .badMagic) ∧
    (Job.Read (constEngine (.res .badMagic) []) listReader
        (Job.Read (constEngine (.res .badMagic) []) listReader
          (newJob () ([] : List Nat)) 4).post 4).ret = some .eofSig ∧
    (some RdSig.eofSig ≠ some (RdSig.hard GoError.badMagic)) := by
  decide

/-- C4: a short basis read accompanied by `io.EOF` makes the callback
report `RS_INPUT_ENDED` (never an I/O fault), while a short basis read
with any other error raises the out-of-band fault carrying exactly that
error; a short upstream source read with `io.EOF` merely sets the
end-of-input flag (`job.err` untouched, iteration still runs), while
any other source error is stored in `job.err`, stops the Job and is
returned by that call — never silently swallowed. -/
theorem short_read_classification (basis : BasisAt) (p : Scratch)
    (pos len : Nat) (E : Engine σ) (R : Reader ρ) (s : Job σ ρ) (plen : Nat) :
    ((basis.readAt pos len).1.length < len →
      (((basis.readAt pos len).2 = some .eofSig →
        (patchCallbackGo basis p pos len).1 = .inputEnded) ∧
       (∀ e, (basis.readAt pos len).2 = some (.hard e) →
        (patchCallbackGo basis p pos len).1 = .fault (some e)))) ∧
    (s.outbuf = [] → s.running = true → s.pendingIn = [] → s.eofIn = false →
      (((R.read s.reader inbufSize).sig = some .eofSig →
         (Job.Read E R s plen).post.eofIn = true ∧
         (Job.Read E R s plen).post.err = s.err ∧
         (Job.Read E R s plen).didIter = true) ∧
       (∀ e, (R.read s.reader inbufSize).sig = some (.hard e) →
         Job.Read E R s plen
           = ⟨[], 0, some (.hard e), false, true,
              { s with
                err := some e
                running := false
                reader := (R.read s.reader inbufSize).next }⟩))) := by
  constructor
  · intro hShort
    constructor
    · intro hSig
      simp [patchCallbackGo, if_pos hShort, hSig]
    · intro e hSig
      simp [patchCallbackGo, if_pos hShort, hSig]
  · intro hOutE hRunT hPE hEofF
    constructor
    · intro hSig
      rw [jobRead_fill_eof E R s plen hOutE hRunT hPE hEofF hSig]
      refine ⟨?_, ?_, (iterPhase_fields E _ true).2.1⟩
      · exact (iterPhase_fields E _ true).2.2.2.2.2
      · exact (iterPhase_fields E _ true).2.2.2.2.1
    · intro e hSig
      exact jobRead_fill_hard E R s plen e hOutE hRunT hPE hEofF hSig

/-- Witness for C4: a concrete short basis read at `io.EOF` yields
`RS_INPUT_ENDED`; a concrete short basis read with a hard error yields
the out-of-band fault; a concrete hard upstream read is returned and
stored by `Job.Read`. -/
theorem short_read_classification_witness :
    (patchCallbackGo (constBasis [] (some .eofSig)) Scratch.start 0 4).1
      = .inputEnded ∧
    (patchCallbackGo (constBasis [7] (some (.hard (.ioErr 3)))) Scratch.start 0 2).1
      = .fault (some (.ioErr 3)) ∧
    (Job.Read (constEngine (.res .done) [])
        (constReader [] (some (.hard (.ioErr 5)))) (newJob () ()) 4).ret
      = some (.hard (.ioErr 5)) ∧
    (Job.Read (constEngine (.res .done) [])
        (constReader [] (some (.hard (.ioErr 5)))) (newJob () ()) 4).post.err
      = some (.ioErr 5) := by
  refine ⟨?_, ?_, ?_, ?_⟩
  · exact ((short_read_classification (constBasis [] (some .eofSig)) Scratch.start
      0 4 (constEngine (.res .done) []) (constReader [] none) (newJob () ()) 4).1
      (by decide)).1 (by decide)
  · exact ((short_read_classification (constBasis [7] (some (.hard (.ioErr 3))))
      Scratch.start 0 2 (constEngine (.res .done) []) (constReader [] none)
      (newJob () ()) 4).1 (by decide)).2 (.ioErr 3) (by decide)
  · rw [((short_read_classification (constBasis [] none) Scratch.start 0 1
      (constEngine (.res .done) []) (constReader [] (some (.hard (.ioErr 5))))
      (newJob () ()) 4).2 rfl rfl rfl rfl).2 (.ioErr 5) (by decide)]
  · rw [((short_read_classification (constBasis [] none) Scratch.start 0 1
      (constEngine (.res .done) []) (constReader [] (some (.hard (.ioErr 5))))
      (newJob () ()) 4).2 rfl rfl rfl rfl).2 (.ioErr 5) (by decide)]

/-- C5: a basis I/O fault raised inside the patch callback travels only
as the out-of-band `jobInternalPanic` value — the callback's engine-
visible vocabulary is just `RS_DONE`/`RS_INPUT_ENDED` and never encodes
the fault; the `recover` at the `jobIter` boundary (after `rs_job_iter`
has returned control) converts it into `(running = false, err)`, and
the surrounding `Read` surfaces it as an ordinary error with the Job
stopped. -/
theorem callback_fault_contained (e : GoError) (E : Engine σ) (s : Job σ ρ)
    (dF : Bool) (basis : BasisAt) (p : Scratch) (pos len : Nat) :
    (jobIter (.fault (some e)) = (false, some e)) ∧
    ((E.step s.engine s.pendingIn s.eofIn outbufSize).raw = .fault (some e) →
      (iterPhase E s dF).ret = some (.hard e) ∧
      (iterPhase E s dF).post.running = false) ∧
    ((basis.readAt pos len).1.length < len →
      (basis.readAt pos len).2 = some (.hard e) →
      (patchCallbackGo basis p pos len).1 = .fault (some e) ∧
      (patchCallbackGo basis p pos len).1 ≠ .inputEnded ∧
      ∀ d, (patchCallbackGo basis p pos len).1 ≠ .done d) := by
  refine ⟨rfl, ?_, ?_⟩
  · intro hRaw
    simp [iterPhase, hRaw, jobIter]
  · intro hShort hSig
    simp [patchCallbackGo, if_pos hShort, hSig]

/-- Witness for C5 at a concrete fault `ioErr 2`: the recovered fault
becomes the ordinary error result of the iteration with the Job
stopped, and a concrete short hard basis read raises (not returns) the
fault. -/
theorem callback_fault_contained_witness :
    (iterPhase (constEngine (.fault (some (.ioErr 2))) [])
        (newJob () ([] : List Nat)) false).ret = some (.hard (.ioErr 2)) ∧
    (iterPhase (constEngine (.fault (some (.ioErr 2))) [])
        (newJob () ([] : List Nat)) false).post.running = false ∧
    (patchCallbackGo (constBasis [] (some (.hard (.ioErr 2)))) Scratch.start 0 3).1
      = .fault (some (.ioErr 2)) := by
  have h := callback_fault_contained (.ioErr 2)
    (constEngine (.fault (some (.ioErr 2))) []) (newJob () ([] : List Nat)) false
    (constBasis [] (some (.hard (.ioErr 2)))) Scratch.start 0 3
  refine ⟨(h.2.1 rfl).1, (h.2.1 rfl).2, (h.2.2 (by decide) (by decide)).1⟩

/-- Removing an id removes it from the lookup. -/
theorem getPatcher_removeReg (r : Reg α) (id : Nat) :
    getPatcher (removeReg r id) id = none := by
  induction r with
  | nil => rfl
  | cons hd t ih =>
    obtain ⟨k, v⟩ := hd
    by_cases h : k = id
    · simp [removeReg, h, ih]
    · simp [removeReg, getPatcher, h, ih]

/-- C6: registering an id already present in `patcherStore` panics
(`"pointer already stored"`), deregistering an absent id panics
(`"pointer not stored"`); hence after a successful registration the id
cannot be registered again until it is deregistered, after which it is
reusable. -/
theorem registry_discipline (r : Reg α) (id : Nat) (p p' p'' : α) :
    (getPatcher r id ≠ none → storePatcher r p id = none) ∧
    (getPatcher r id = none → dropPatcher r id = none) ∧
    (∀ r1, storePatcher r p id = some r1 → storePatcher r1 p' id = none) ∧
    (∀ r1 r2, storePatcher r p id = some r1 → dropPatcher r1 id = some r2 →
      storePatcher r2 p'' id = some ((id, p'') :: r2)) := by
  refine ⟨?_, ?_, ?_, ?_⟩
  · intro h
    unfold storePatcher
    cases hg : getPatcher r id
    · exact absurd hg h
    · rfl
  · intro h
    unfold dropPatcher
    rw [h]
  · intro r1 h1
    unfold storePatcher at h1 ⊢
    cases hg : getPatcher r id
    · rw [hg] at h1
      simp at h1
      rw [← h1]
      simp [getPatcher]
    · rw [hg] at h1
      simp at h1
  · intro r1 r2 h1 h2
    unfold storePatcher at h1
    cases hg : getPatcher r id
    · rw [hg] at h1
      simp at h1
      unfold dropPatcher at h2
      cases hd : getPatcher r1 id
      · rw [hd] at h2
        simp at h2
      · rw [hd] at h2
        simp at h2
        unfold storePatcher
        rw [← h2, ← h1]
        simp [getPatcher_removeReg]
    · rw [hg] at h1
      simp at h1

/-- Witness for C6 on a concrete registry: double registration of id 5
is fatal, deregistering the absent id 5 is fatal, and after a
register/deregister pair the id is reusable. -/
theorem registry_discipline_witness :
    storePatcher ([(5, 0)] : Reg Nat) 1 5 = none ∧
    dropPatcher ([] : Reg Nat) 5 = none ∧
    storePatcher ([(5, 1)] : Reg Nat) 2 5 = none ∧
    storePatcher (removeReg ([(5, 1)] : Reg Nat) 5) 3 5 = some [(5, 3)] := by
  refine ⟨?_, ?_, ?_, ?_⟩
  · exact (registry_discipline ([(5, 0)] : Reg Nat) 5 1 1 1).1 (by decide)
  · exact (registry_discipline ([] : Reg Nat) 5 1 1 1).2.1 (by decide)
  · exact (registry_discipline ([] : Reg Nat) 5 1 2 1).2.2.1 [(5, 1)] (by decide)
  · exact (registry_discipline ([] : Reg Nat) 5 1 2 3).2.2.2 [(5, 1)]
      (removeReg [(5, 1)] 5) (by decide) (by decide)

/-- C8 is a code bug: when `rs_patch_begin` returns `nil`, `NewPatcher`
runs `dropPatcher(id)` and then `job.Close()`, which resolves to
`(*Patcher).Close` and calls `dropPatcher` on the same id a second
time — by the registry's own discipline this panics
`"pointer not stored"` instead of returning the construction error. -/
theorem newPatcher_failure_panics :
    NewPatcher ([] : Reg Nat) 7 1 true = .fatal "pointer not stored" := by
  rfl

/-- C10: `getPatcher` is a total lookup returning `nil` (`none`)
exactly on unregistered ids; `patchCallbackGo` dereferences the result
with no nil guard, so an unregistered id goes straight to the nil
dereference, and under the precondition that the id is registered that
branch is unreachable. -/
theorem callback_lookup_total (r : Reg PatcherEntry) (id pos len : Nat) :
    (getPatcher r id = none ↔ ∀ p, (id, p) ∉ r) ∧
    (getPatcher r id = none → patchCallbackTop r id pos len = .nilDeref) ∧
    (getPatcher r id ≠ none → patchCallbackTop r id pos len ≠ .nilDeref) := by
  refine ⟨?_, ?_, ?_⟩
  · induction r with
    | nil => simp [getPatcher]
    | cons hd t ih =>
      obtain ⟨k, v⟩ := hd
      by_cases h : k = id
      · subst h
        refine ⟨fun hcontra => ?_, fun hall => ?_⟩
        · simp [getPatcher] at hcontra
        · exact absurd (List.mem_cons_self (k, v) t) (hall v)
      · simp only [getPatcher, if_neg h]
        rw [ih]
        constructor
        · intro ha p hm
          rcases List.mem_cons.mp hm with hm1 | hm2
          · exact h (congrArg Prod.fst hm1).symm
          · exact ha p hm2
        · intro ha p hm
          exact ha p (List.mem_cons.mpr (Or.inr hm))
  · intro h
    unfold patchCallbackTop
    rw [h]
  · intro h
    unfold patchCallbackTop
    cases hg : getPatcher r id
    · exact absurd hg h
    · simp

/-- Witness for C10 on a concrete registry: the lookup of an
unregistered id is `none` and dereferences nil; a registered id never
reaches the nil dereference. -/
theorem callback_lookup_total_witness :
    patchCallbackTop ([] : Reg PatcherEntry) 3 0 4 = .nilDeref ∧
    patchCallbackTop [(3, ⟨constBasis [] (some .eofSig), Scratch.start⟩)] 3 0 4
      ≠ .nilDeref := by
  constructor
  · exact (callback_lookup_total ([] : Reg PatcherEntry) 3 0 4).2.1 rfl
  · exact (callback_lookup_total
      [(3, ⟨constBasis [] (some .eofSig), Scratch.start⟩)] 3 0 4).2.2
      (by simp [getPatcher])

/-- Event counting distributes over ledger concatenation. -/
theorem countEv_append (e : AEv) (l1 l2 : List AEv) :
    countEv e (l1 ++ l2) = countEv e l1 + countEv e l2 := by
  induction l1 with
  | nil => simp [countEv]
  | cons x t ih =>
    simp [countEv, ih]
    omega

/-- Closed form of the scratch state after `n` callback invocations:
the live buffer is the `n`-th allocation, every earlier allocation has
been freed exactly once (by the following invocation), and each
invocation allocates a fresh block. -/
theorem runCb_spec (n : Nat) :
    (runCb n).nextId = n ∧
    (runCb n).buf = (if n = 0 then none else some (n - 1)) ∧
    ∀ id, countEv (.alloc id) (runCb n).trace = (if id < n then 1 else 0) ∧
          countEv (.free id) (runCb n).trace = (if id + 1 < n then 1 else 0) := by
  induction n with
  | zero =>
    refine ⟨rfl, rfl, fun id => ⟨?_, ?_⟩⟩ <;> simp [runCb, Scratch.start, countEv]
  | succ m ih =>
    obtain ⟨hnid, hbuf, hcnt⟩ := ih
    by_cases hm : m = 0
    · subst hm
      refine ⟨rfl, rfl, fun id => ⟨?_, ?_⟩⟩
      · simp [runCb, cbScratch, Scratch.start, countEv]
        split_ifs <;> omega
      · simp [runCb, cbScratch, Scratch.start, countEv]
    · have hb : (runCb m).buf = some (m - 1) := by rw [hbuf, if_neg hm]
      refine ⟨?_, ?_, fun id => ⟨?_, ?_⟩⟩
      · simp [runCb, cbScratch, hb, hnid]
      · simp [runCb, cbScratch, hb, hnid]
      · have h1 := (hcnt id).1
        simp [runCb, cbScratch, hb, hnid, countEv_append, countEv, h1]
        split_ifs <;> omega
      · have h2 := (hcnt id).2
        simp [runCb, cbScratch, hb, hnid, countEv_append, countEv, h2]
        split_ifs <;> omega

/-- C9 (amended): over a whole Patcher session — any number of callback
invocations followed by `Patcher.Close` — every scratch allocation is
freed exactly once and at most one block carries each identity; but the
buffer is reallocated afresh by each invocation (the previous block is
freed by the *next* invocation, and only the final block by `Close`). -/
theorem scratch_ledger_balanced (n id : Nat) :
    countEv (.alloc id) (closeScratch (runCb n)).trace
      = countEv (.free id) (closeScratch (runCb n)).trace ∧
    countEv (.alloc id) (closeScratch (runCb n)).trace ≤ 1 := by
  obtain ⟨hnid, hbuf, hcnt⟩ := runCb_spec n
  obtain ⟨ha, hf⟩ := hcnt id
  by_cases hn : n = 0
  · subst hn
    have hb : (runCb 0).buf = none := hbuf
    constructor <;> simp [closeScratch, hb, ha, hf]
  · have hb : (runCb n).buf = some (n - 1) := by rw [hbuf, if_neg hn]
    constructor
    · simp [closeScratch, hb, countEv_append, countEv, ha, hf]
      split_ifs <;> omega
    · simp [closeScratch, hb, countEv_append, countEv, ha, hf]
      split_ifs <;> omega

/-- C9 is false as stated: already on the second callback invocation
(before any close) the first scratch block has been freed and a fresh
block allocated — the buffer is reallocated from scratch each call, not
reused, and frees are not confined to `Patcher.Close`. -/
theorem scratch_reallocated_each_call :
    (runCb 2).trace = [.alloc 0, .free 0, .alloc 1] ∧
    countEv (.free 0) (runCb 2).trace = 1 ∧
    countEv (.alloc 0) (runCb 2).trace + countEv (.alloc 1) (runCb 2).trace = 2 := by
  decide

end Golibrsync
